import Mathlib

/-!
Verification of the artistic-QR generator service (`app.py`).

The development shallowly embeds the pure core of the service:
parameter clamping, the protected-zone classifier, alignment-pattern
centers, mask scoring and selection, conservative dark-module
suppression, artwork normalization, the raster compositor, and the
`/generate` request handler control flow.  Machine floats are modelled
exactly as rationals (plus the special values `nan`, `inf`, `-inf`
where the code can observe them), Python integers as `Int`/`Nat`, and
library raster operations as explicit pixel functions.
-/

namespace QRArt

/-- A Python float as observed by `clamp`: NaN, the two infinities, or a
finite value modelled exactly as a rational. -/
inductive PFloat where
  | nan : PFloat
  | inf : PFloat
  | ninf : PFloat
  | num : ℚ → PFloat
deriving DecidableEq

/-- Python `<` on floats: any comparison with NaN is false, `-inf` is below
everything else, `inf` above everything else. -/
def pyLt : PFloat → PFloat → Bool
  | .nan, _ => false
  | _, .nan => false
  | .inf, _ => false
  | .ninf, .ninf => false
  | .ninf, _ => true
  | .num _, .inf => true
  | .num _, .ninf => false
  | .num a, .num b => decide (a < b)

/-- Python `min(a, b)`: keeps `a` unless `b < a`. -/
def pyMin (a b : PFloat) : PFloat := if pyLt b a then b else a

/-- Python `max(a, b)`: keeps `a` unless `a < b`. -/
def pyMax (a b : PFloat) : PFloat := if pyLt a b then b else a

/-- `clamp(v, lo, hi, default)` from `app.py`: the argument is the result of
`float(v)` (`none` when parsing raised), and a parsed value is clamped by
`max(lo, min(hi, x))`. -/
def clamp (v : Option PFloat) (lo hi dflt : PFloat) : PFloat :=
  match v with
  | none => dflt
  | some x => pyMax lo (pyMin hi x)

/-- Membership of a `PFloat` in a closed rational interval. -/
def inRange (lo hi : ℚ) : PFloat → Prop
  | .num q => lo ≤ q ∧ q ≤ hi
  | _ => False

instance (lo hi : ℚ) (x : PFloat) : Decidable (inRange lo hi x) := by
  cases x <;> simp [inRange] <;> infer_instance

/-- The effective dot-scale parameter of `/generate`:
`clamp(request.args.get("dot"), 0.55, 0.92, 0.78)`. -/
def dotParam (v : Option PFloat) : PFloat :=
  clamp v (.num (55/100)) (.num (92/100)) (.num (78/100))

/-- The effective wash parameter of `/generate`:
`clamp(request.args.get("wash"), 0.00, 0.60, 0.20)`. -/
def washParam (v : Option PFloat) : PFloat :=
  clamp v (.num 0) (.num (60/100)) (.num (20/100))

/-- The effective suppression-budget parameter of `/generate`:
`clamp(request.args.get("budget"), 0.00, 0.18, 0.08)`. -/
def budgetParam (v : Option PFloat) : PFloat :=
  clamp v (.num 0) (.num (18/100)) (.num (8/100))

/-! ## QR geometry: protected-zone classifier -/

/-- `qr_size_from_version`: `n = 17 + 4 * version`. -/
def qr_size_from_version (version : ℤ) : ℤ := 17 + 4 * version

/-- `alignment_centers` from `app.py`, translated verbatim: empty for
`version ≤ 1`; `[6, n-7]` when `num == 2`; otherwise `[6]` followed by
`last - (num - 3 - i) * step` for `i = 0 .. num-3`, followed by `last`. -/
def alignment_centers (version : ℤ) : List ℤ :=
  if version ≤ 1 then []
  else
    let n := qr_size_from_version version
    let num := version / 7 + 2
    if num = 2 then [6, n - 7]
    else
      let step0 := (n - 13) / (num - 1)
      let step := if step0 % 2 = 1 then step0 + 1 else step0
      let last := n - 7
      [6] ++ ((List.range (num - 2).toNat).map
        (fun i => last - (num - 3 - (i : ℤ)) * step)) ++ [last]

/-- `in_finder_or_separator`: the three 9×9 finder-plus-separator corner
blocks. -/
def in_finder_or_separator (r c n : ℤ) : Bool :=
  decide (r ≤ 8 ∧ c ≤ 8) || decide (r ≤ 8 ∧ c ≥ n - 9) ||
    decide (r ≥ n - 9 ∧ c ≤ 8)

/-- `in_timing`: the horizontal and vertical timing strips. -/
def in_timing (r c n : ℤ) : Bool :=
  decide (r = 6 ∧ 8 ≤ c ∧ c ≤ n - 9) || decide (c = 6 ∧ 8 ≤ r ∧ r ≤ n - 9)

/-- `in_format_info`: the format-information strips along row 8 and
column 8. -/
def in_format_info (r c n : ℤ) : Bool :=
  decide (r = 8 ∧ (c ≤ 8 ∨ c ≥ n - 9)) || decide (c = 8 ∧ (r ≤ 8 ∨ r ≥ n - 9))

/-- Whether a center pair coincides with one of the three finder corners and
is skipped by `in_alignment`. -/
def isFinderCenterPair (cy cx n : ℤ) : Prop :=
  (cx = 6 ∧ cy = 6) ∨ (cx = 6 ∧ cy = n - 7) ∨ (cx = n - 7 ∧ cy = 6)

instance (cy cx n : ℤ) : Decidable (isFinderCenterPair cy cx n) := by
  unfold isFinderCenterPair; infer_instance

/-- `in_alignment`: true when `(r, c)` lies within the 5×5 box of a
non-finder alignment-center pair. -/
def in_alignment (r c version : ℤ) : Bool :=
  if version ≤ 1 then false
  else
    let centers := alignment_centers version
    if centers.isEmpty then false
    else
      let n := qr_size_from_version version
      centers.any (fun cy => centers.any (fun cx =>
        decide (¬ isFinderCenterPair cy cx n ∧ |r - cy| ≤ 2 ∧ |c - cx| ≤ 2)))

/-- `is_protected`: union of finder/separator, timing, format-information
and alignment zones. -/
def is_protected (r c n version : ℤ) : Bool :=
  in_finder_or_separator r c n || in_timing r c n || in_format_info r c n ||
    in_alignment r c version

/-- The protected set as the specification words it: the three 9×9 corner
blocks, the timing strips, the format strips, and the alignment boxes. -/
def protectedSpec (r c n version : ℤ) : Prop :=
  (r ≤ 8 ∧ c ≤ 8) ∨
  (r ≤ 8 ∧ n - 9 ≤ c ∧ c ≤ n - 1) ∨
  (n - 9 ≤ r ∧ r ≤ n - 1 ∧ c ≤ 8) ∨
  (r = 6 ∧ 8 ≤ c ∧ c ≤ n - 9) ∨
  (c = 6 ∧ 8 ≤ r ∧ r ≤ n - 9) ∨
  (r = 8 ∧ (c ≤ 8 ∨ c ≥ n - 9)) ∨
  (c = 8 ∧ (r ≤ 8 ∨ r ≥ n - 9)) ∨
  in_alignment r c version = true

/-! ## Mask scoring and selection -/

/-- `matrix[r][c]` (out-of-range reads as a light module; in the pipeline the
matrix is always `n × n`). -/
def matAt (m : List (List Bool)) (r c : ℕ) : Bool := (m.getD r []).getD c false

/-- `luma[r][c]` (out-of-range reads as 0). -/
def lumaAt (l : List (List ℚ)) (r c : ℕ) : ℚ := (l.getD r []).getD c 0

/-- All `(r, c)` cells of an `n × n` symbol in row-major order, as iterated
by `for r in range(n): for c in range(n)`. -/
def allCells (n : ℕ) : List (ℕ × ℕ) :=
  (List.range n).flatMap (fun r => (List.range n).map (fun c => (r, c)))

/-- The cells `score_mask` scores: those not skipped by `is_protected`. -/
def unprotectedCells (n : ℕ) (version : ℤ) : List (ℕ × ℕ) :=
  (allCells n).filter (fun p => !is_protected p.1 p.2 n version)

/-- The per-module contribution accumulated by `score_mask`: `255 - y` for a
dark module, `0.35 * y` (the float 0.35 is the rational `mkRat 35 100` in
this model) for a light one. -/
def cellScore (m : List (List Bool)) (luma : List (List ℚ)) (p : ℕ × ℕ) : ℚ :=
  if matAt m p.1 p.2 then 255 - lumaAt luma p.1 p.2
  else mkRat 35 100 * lumaAt luma p.1 p.2

/-- `score_mask` from `app.py`: accumulate over non-protected cells and
normalize by `max(1, count)`. -/
def score_mask (m : List (List Bool)) (luma : List (List ℚ))
    (version : ℤ) : ℚ :=
  ((unprotectedCells m.length version).foldl
      (fun s p => s + cellScore m luma p) 0) /
    max 1 ((unprotectedCells m.length version).length : ℚ)

/-- The mask-selection loop of `generate`: starting from
`best_score = -1e18` and no selection, keep the first candidate whose score
strictly exceeds the best so far. -/
def select_best (cands : List (List (List Bool) × ℤ))
    (luma : List (List ℚ)) : ℚ × Option (ℕ × List (List Bool) × ℤ) :=
  cands.enum.foldl
    (fun best p =>
      if best.1 < score_mask p.2.1 luma p.2.2 then
        (score_mask p.2.1 luma p.2.2, some p)
      else best)
    (-(10 ^ 18 : ℚ), none)

/-! ## Conservative dark-module suppression -/

/-- Python `int()` truncation toward zero of an (exact-rational) float. -/
def pyInt (q : ℚ) : ℤ := if q < 0 then ⌈q⌉ else ⌊q⌋

/-- The suppression candidate list of `generate`: every eligible (dark and
non-protected) module in row-major order, tagged with its local luminance,
exactly as the code appends `(luma[r][c], r, c)`. -/
def suppression_candidates (matrix : List (List Bool)) (luma : List (List ℚ))
    (version : ℤ) : List (ℚ × ℕ × ℕ) :=
  (allCells matrix.length).filterMap (fun p =>
    if matAt matrix p.1 p.2 &&
        !(is_protected p.1 p.2 matrix.length version) then
      some (lumaAt luma p.1 p.2, p.1, p.2)
    else none)

/-- The modules `generate` suppresses: candidates sorted by descending
luminance (stable, as Python `sort(reverse=True)`), truncated to
`min(int(dark_count * budget), 2500)` entries; empty unless `budget > 0`. -/
def removed_modules (matrix : List (List Bool)) (luma : List (List ℚ))
    (version : ℤ) (budget : ℚ) : List (ℕ × ℕ) :=
  if 0 < budget then
    ((((suppression_candidates matrix luma version).mergeSort
          (fun a b => decide (b.1 ≤ a.1))).take
        (min (pyInt
            (((suppression_candidates matrix luma version).length : ℚ) *
              budget)).toNat
          2500)).map (fun t => t.2))
  else []

/-! ## Raster compositing

The canvas is modelled as a pixel function `ℤ × ℤ → ℕ × ℕ × ℕ`; the draw
calls of `generate` become a list of (shape, colour) commands applied in
program order, with a later command overwriting the pixels it covers. -/

/-- `box = 16` (pixels per module), fixed in `generate`. -/
def box : ℤ := 16

/-- `quiet = 6` (quiet-zone width in modules), fixed in `generate`. -/
def quiet : ℤ := 6

/-- A PIL draw primitive: `draw.rectangle` (integer corners, inclusive) or
`draw.ellipse` (float bounding box). -/
inductive Shape where
  | rect (x0 y0 x1 y1 : ℤ)
  | ellipse (x0 y0 x1 y1 : ℚ)

/-- Pixel coverage of a primitive.  A rectangle covers its inclusive corner
box; a filled ellipse covers the pixels of its bounding box satisfying the
standard ellipse inequality. -/
def covers : Shape → ℤ × ℤ → Bool
  | .rect x0 y0 x1 y1, p =>
      decide (x0 ≤ p.1 ∧ p.1 ≤ x1 ∧ y0 ≤ p.2 ∧ p.2 ≤ y1)
  | .ellipse x0 y0 x1 y1, p =>
      decide (x0 ≤ (p.1 : ℚ) ∧ (p.1 : ℚ) ≤ x1 ∧ y0 ≤ (p.2 : ℚ) ∧
        (p.2 : ℚ) ≤ y1 ∧
        (2 * (p.1 : ℚ) - (x0 + x1)) ^ 2 * (y1 - y0) ^ 2 +
            (2 * (p.2 : ℚ) - (y0 + y1)) ^ 2 * (x1 - x0) ^ 2 ≤
          (x1 - x0) ^ 2 * (y1 - y0) ^ 2)

/-- `draw_dot(x0, y0, x1, y1, scale, rgb)`: the ellipse inset by
`pad = (1.0 - scale) * box / 2.0` on all four sides of the cell. -/
def dotShape (x0 y0 x1 y1 : ℤ) (scale : ℚ) : Shape :=
  Shape.ellipse ((x0 : ℚ) + (1 - scale) * (box : ℚ) / 2)
    ((y0 : ℚ) + (1 - scale) * (box : ℚ) / 2)
    ((x1 : ℚ) - (1 - scale) * (box : ℚ) / 2)
    ((y1 : ℚ) - (1 - scale) * (box : ℚ) / 2)

/-- The draw commands the module-render loop emits for cell `(r, c)`:
an exact square for a protected module, nothing for a suppressed dark
module, a black dot for a remaining dark module, and a white dot of scale
`max(0.45, min(0.88, dot_scale * 0.88))` for a light module. -/
def cellCmds (matrix : List (List Bool)) (version : ℤ)
    (removedL : List (ℕ × ℕ)) (dot_scale : ℚ) (r c : ℕ) :
    List (Shape × (ℕ × ℕ × ℕ)) :=
  if is_protected r c matrix.length version then
    if matAt matrix r c then
      [(Shape.rect ((quiet + c) * box) ((quiet + r) * box)
          ((quiet + c) * box + box) ((quiet + r) * box + box), (0, 0, 0))]
    else
      [(Shape.rect ((quiet + c) * box) ((quiet + r) * box)
          ((quiet + c) * box + box) ((quiet + r) * box + box),
        (255, 255, 255))]
  else if matAt matrix r c then
    if (r, c) ∈ removedL then []
    else
      [(dotShape ((quiet + c) * box) ((quiet + r) * box)
          ((quiet + c) * box + box) ((quiet + r) * box + box) dot_scale,
        (0, 0, 0))]
  else
    [(dotShape ((quiet + c) * box) ((quiet + r) * box)
        ((quiet + c) * box + box) ((quiet + r) * box + box)
        (max (45/100) (min (88/100) (dot_scale * (88/100)))),
      (255, 255, 255))]

/-- All module draw commands, in the row-major order of the render loop. -/
def renderCmds (matrix : List (List Bool)) (version : ℤ)
    (removedL : List (ℕ × ℕ)) (dot_scale : ℚ) :
    List (Shape × (ℕ × ℕ × ℕ)) :=
  (allCells matrix.length).flatMap
    (fun p => cellCmds matrix version removedL dot_scale p.1 p.2)

/-- The four final white rectangles of `generate` that overwrite the quiet
zone, in program order. -/
def quietCmds (n : ℕ) : List (Shape × (ℕ × ℕ × ℕ)) :=
  [(Shape.rect 0 0 (((n : ℤ) + 2 * quiet) * box) (quiet * box),
    (255, 255, 255)),
   (Shape.rect 0 (((n : ℤ) + 2 * quiet) * box - quiet * box)
      (((n : ℤ) + 2 * quiet) * box) (((n : ℤ) + 2 * quiet) * box),
    (255, 255, 255)),
   (Shape.rect 0 0 (quiet * box) (((n : ℤ) + 2 * quiet) * box),
    (255, 255, 255)),
   (Shape.rect (((n : ℤ) + 2 * quiet) * box - quiet * box) 0
      (((n : ℤ) + 2 * quiet) * box) (((n : ℤ) + 2 * quiet) * box),
    (255, 255, 255))]

/-- Apply draw commands in order over a base canvas: a later command wins on
the pixels it covers. -/
def paint (cmds : List (Shape × (ℕ × ℕ × ℕ))) (base : ℤ × ℤ → ℕ × ℕ × ℕ)
    (p : ℤ × ℤ) : ℕ × ℕ × ℕ :=
  cmds.foldl (fun col cmd => if covers cmd.1 p then cmd.2 else col) (base p)

/-- Alpha-masked paste of an artwork pixel `(r, g, b, a)` over a canvas
pixel, modelling PIL `paste` with the artwork as its own mask:
`out = (base * (255 - a) + src * a) / 255` per channel. -/
def blendPx (src : ℕ × ℕ × ℕ × ℕ) (dst : ℕ × ℕ × ℕ) : ℕ × ℕ × ℕ :=
  ((dst.1 * (255 - src.2.2.2) + src.1 * src.2.2.2) / 255,
   (dst.2.1 * (255 - src.2.2.2) + src.2.1 * src.2.2.2) / 255,
   (dst.2.2 * (255 - src.2.2.2) + src.2.2.1 * src.2.2.2) / 255)

/-- The canvas before module rendering: white everywhere, with the prepared
artwork (when present) pasted at `(quiet * box, quiet * box)` over a square
of side `n * box` — the module area only. -/
def baseCanvas (n : ℕ) (art : Option (ℤ × ℤ → ℕ × ℕ × ℕ × ℕ))
    (p : ℤ × ℤ) : ℕ × ℕ × ℕ :=
  match art with
  | none => (255, 255, 255)
  | some a =>
      if quiet * box ≤ p.1 ∧ p.1 < quiet * box + (n : ℤ) * box ∧
          quiet * box ≤ p.2 ∧ p.2 < quiet * box + (n : ℤ) * box then
        blendPx (a (p.1 - quiet * box, p.2 - quiet * box)) (255, 255, 255)
      else (255, 255, 255)

/-- The final raster of `generate`: artwork paste, then the module render
loop, then the four unconditional white quiet-zone rectangles. -/
def finalRaster (matrix : List (List Bool)) (version : ℤ)
    (removedL : List (ℕ × ℕ)) (dot_scale : ℚ)
    (art : Option (ℤ × ℤ → ℕ × ℕ × ℕ × ℕ)) (p : ℤ × ℤ) : ℕ × ℕ × ℕ :=
  paint (renderCmds matrix version removedL dot_scale ++
      quietCmds matrix.length)
    (baseCanvas matrix.length art) p

/-! ## Artwork normalization -/

/-- An RGBA raster image: dimensions plus a pixel function. -/
structure Img where
  w : ℕ
  h : ℕ
  px : ℕ → ℕ → ℕ × ℕ × ℕ × ℕ

/-- `img.crop(bbox)` with PIL box `(minx, miny, maxx_exclusive,
maxy_exclusive)`. -/
def crop (img : Img) (b : ℕ × ℕ × ℕ × ℕ) : Img :=
  ⟨b.2.2.1 - b.1, b.2.2.2 - b.2.1, fun x y => img.px (x + b.1) (y + b.2.1)⟩

/-- `_bbox_nontransparent`: the PIL `getbbox` of the mask `alpha >
threshold` — the smallest box containing every pixel whose alpha exceeds the
threshold, `none` when there is no such pixel.  (`getbbox` itself is a
library call; it is modelled by its documented result.) -/
def bbox_nontransparent (img : Img) (threshold : ℕ) :
    Option (ℕ × ℕ × ℕ × ℕ) :=
  if ((List.range img.w).filter
        (fun x => (List.range img.h).any
          (fun y => threshold < (img.px x y).2.2.2))).isEmpty ∨
      ((List.range img.h).filter
        (fun y => (List.range img.w).any
          (fun x => threshold < (img.px x y).2.2.2))).isEmpty then
    none
  else
    some ((((List.range img.w).filter
        (fun x => (List.range img.h).any
          (fun y => threshold < (img.px x y).2.2.2))).head?.getD 0),
      (((List.range img.h).filter
        (fun y => (List.range img.w).any
          (fun x => threshold < (img.px x y).2.2.2))).head?.getD 0),
      (((List.range img.w).filter
        (fun x => (List.range img.h).any
          (fun y => threshold < (img.px x y).2.2.2))).getLast?.getD 0) + 1,
      (((List.range img.h).filter
        (fun y => (List.range img.w).any
          (fun x => threshold < (img.px x y).2.2.2))).getLast?.getD 0) + 1)

/-- The luminance `0.299 * r + 0.587 * g + 0.114 * b` computed inside
`_bbox_nonwhite` (float constants as exact rationals). -/
def lumNoAlpha (c : ℕ × ℕ × ℕ × ℕ) : ℚ :=
  mkRat 299 1000 * c.1 + mkRat 587 1000 * c.2.1 + mkRat 114 1000 * c.2.2.1

/-- One step of the `_bbox_nonwhite` scan: skip fully transparent pixels,
otherwise extend the running `(minx, miny, maxx, maxy)` bounds when the
pixel is not near-white. -/
def bboxStep (img : Img) (lum_threshold : ℚ) (acc : ℤ × ℤ × ℤ × ℤ)
    (p : ℕ × ℕ) : ℤ × ℤ × ℤ × ℤ :=
  if (img.px p.1 p.2).2.2.2 = 0 then acc
  else if lumNoAlpha (img.px p.1 p.2) < lum_threshold then
    (min acc.1 p.1, min acc.2.1 p.2, max acc.2.2.1 p.1, max acc.2.2.2 p.2)
  else acc

/-- `_bbox_nonwhite`, translated from its explicit pixel loop: bounds start
at `(w, h, -1, -1)`, every non-transparent pixel darker than the threshold
extends them, and a negative max means `None`; the returned box is
right/bottom exclusive. -/
def bbox_nonwhite (img : Img) (lum_threshold : ℚ) :
    Option (ℕ × ℕ × ℕ × ℕ) :=
  match ((List.range img.h).flatMap
      (fun y => (List.range img.w).map (fun x => (x, y)))).foldl
      (bboxStep img lum_threshold) ((img.w : ℤ), (img.h : ℤ), -1, -1) with
  | (minx, miny, maxx, maxy) =>
      if maxx < 0 then none
      else some (minx.toNat, miny.toNat, (maxx + 1).toNat, (maxy + 1).toNat)

/-- Python `round` (half to even) of an exact rational. -/
def pyRound (q : ℚ) : ℤ :=
  if q - ⌊q⌋ < mkRat 1 2 then ⌊q⌋
  else if mkRat 1 2 < q - ⌊q⌋ then ⌊q⌋ + 1
  else if ⌊q⌋ % 2 = 0 then ⌊q⌋ else ⌊q⌋ + 1

/-- `art.resize((new_w, new_h), Image.LANCZOS)`: a library call, modelled as
a dimension-correct resampling (the claims depend only on the output
dimensions and placement). -/
def resizeImg (img : Img) (nw nh : ℕ) : Img :=
  ⟨nw, nh, fun x y => img.px (x * img.w / nw) (y * img.h / nh)⟩

/-- One channel of an alpha blend `(base * (255 - a) + src * a) / 255`. -/
def blendChan (srcc basec a : ℕ) : ℕ := (basec * (255 - a) + srcc * a) / 255

/-- `square.paste(art_resized, (ox, oy), art_resized)`: alpha-masked paste
of `src` onto `base` at offset `(ox, oy)`. -/
def pasteRGBA (base src : Img) (ox oy : ℕ) : Img :=
  ⟨base.w, base.h, fun x y =>
    if ox ≤ x ∧ x < ox + src.w ∧ oy ≤ y ∧ y < oy + src.h then
      (blendChan (src.px (x - ox) (y - oy)).1 (base.px x y).1
          (src.px (x - ox) (y - oy)).2.2.2,
        blendChan (src.px (x - ox) (y - oy)).2.1 (base.px x y).2.1
          (src.px (x - ox) (y - oy)).2.2.2,
        blendChan (src.px (x - ox) (y - oy)).2.2.1 (base.px x y).2.2.1
          (src.px (x - ox) (y - oy)).2.2.2,
        blendChan (src.px (x - ox) (y - oy)).2.2.2 (base.px x y).2.2.2
          (src.px (x - ox) (y - oy)).2.2.2)
    else base.px x y⟩

/-- The two trim steps of `normalize_artwork_into_square`: crop away
transparent padding when `_bbox_nontransparent` finds a box, then crop away
near-white padding when `_bbox_nonwhite` finds a box that trims something
real. -/
def trimArtwork (art : Img) : Img :=
  match bbox_nontransparent art 8 with
  | some b => crop art b
  | none => art

def trimArtwork2 (art1 : Img) : Img :=
  match bbox_nonwhite art1 250 with
  | some b =>
      if b.2.2.1 - b.1 < art1.w ∨ b.2.2.2 - b.2.1 < art1.h then crop art1 b
      else art1
  | none => art1

/-- `normalize_artwork_into_square(art, side_px)`: trim, contain-fit with
`scale = min(side/w, side/h)` and banker-rounded dimensions (at least 1),
then centre on a transparent `side_px` square. -/
def normalize_artwork_into_square (art : Img) (side_px : ℕ) : Img :=
  if (trimArtwork2 (trimArtwork art)).w = 0 ∨
      (trimArtwork2 (trimArtwork art)).h = 0 then
    ⟨side_px, side_px, fun _ _ => (0, 0, 0, 0)⟩
  else
    pasteRGBA ⟨side_px, side_px, fun _ _ => (0, 0, 0, 0)⟩
      (resizeImg (trimArtwork2 (trimArtwork art))
        (max 1 (pyRound (((trimArtwork2 (trimArtwork art)).w : ℚ) *
          min ((side_px : ℚ) / (trimArtwork2 (trimArtwork art)).w)
            ((side_px : ℚ) / (trimArtwork2 (trimArtwork art)).h))).toNat)
        (max 1 (pyRound (((trimArtwork2 (trimArtwork art)).h : ℚ) *
          min ((side_px : ℚ) / (trimArtwork2 (trimArtwork art)).w)
            ((side_px : ℚ) / (trimArtwork2 (trimArtwork art)).h))).toNat))
      ((side_px - max 1 (pyRound (((trimArtwork2 (trimArtwork art)).w : ℚ) *
          min ((side_px : ℚ) / (trimArtwork2 (trimArtwork art)).w)
            ((side_px : ℚ) / (trimArtwork2 (trimArtwork art)).h))).toNat) / 2)
      ((side_px - max 1 (pyRound (((trimArtwork2 (trimArtwork art)).h : ℚ) *
          min ((side_px : ℚ) / (trimArtwork2 (trimArtwork art)).w)
            ((side_px : ℚ) / (trimArtwork2 (trimArtwork art)).h))).toNat) / 2)

/-! ## The /generate request handler -/

/-- Python `str.strip()`: drop whitespace from both ends (modelled over the
character list). -/
def pyStrip (s : String) : String :=
  ⟨((s.data.dropWhile Char.isWhitespace).reverse.dropWhile
      Char.isWhitespace).reverse⟩

/-- An observable side effect of the `/generate` handler, in program
order. -/
inductive Effect where
  | fetch (url : String)
  | encode (mask : Option ℕ)
  | render
deriving DecidableEq

/-- The handler's response: HTTP status, mimetype, text body (errors only),
whether artwork was composited, and the mask passed to the encoder for the
final matrix (`none` = the encoder's default mask). -/
structure Resp where
  status : ℕ
  mimetype : String
  bodyText : Option String
  artUsed : Bool
  maskUsed : Option ℕ
deriving DecidableEq

/-- The `/generate` handler control flow.  `enc` models the external QR
encoder (`segno.make data error=h mask`), `dataP`/`artP` the raw query
parameters (absent = `none`), `dotP`/`washP`/`budgetP` the float-parse
results of the numeric parameters (clamped, purely, before the data check),
and `fetched` the outcome of fetch+normalize+sample when a fetch would be
attempted (`none` = any network or decode failure, swallowed by the
`try/except`). -/
def generateHandler (enc : Option ℕ → List (List Bool) × ℤ)
    (dataP artP : Option String) (dotP washP budgetP : Option PFloat)
    (fetched : Option (List (List ℚ))) : Resp × List Effect :=
  let dot := dotParam dotP
  let wash := washParam washP
  let budget := budgetParam budgetP
  if pyStrip (dataP.getD "") = "" then
    (⟨400, "text/plain", some "Missing QR data", false, none⟩, [])
  else
    if pyStrip (artP.getD "") = "" then
      (⟨200, "image/png", none, false, none⟩, [.encode none, .render])
    else
      match fetched with
      | none =>
          (⟨200, "image/png", none, false, none⟩,
            [.fetch (pyStrip (artP.getD "")), .encode none, .render])
      | some luma =>
          let cands := (List.range 8).map (fun m => enc (some m))
          let best := select_best cands luma
          (⟨200, "image/png", none, true, (best.2.map (fun b => b.1))⟩,
            [.fetch (pyStrip (artP.getD "")), .encode (some 0)] ++
              (List.range 8).map (fun m => .encode (some m)) ++ [.render])

/-! ## Theorems -/

lemma clamp_some_mem (lo hi : ℚ) (d : PFloat) (h : lo ≤ hi) (x : PFloat) :
    inRange lo hi (clamp (some x) (.num lo) (.num hi) d) := by
  cases x <;>
    simp only [clamp, pyMin, pyMax, pyLt, inRange] <;>
    split_ifs <;>
    simp_all [inRange, pyLt] <;>
    first
      | exact ⟨by linarith, by linarith⟩
      | linarith

/-- Claim C8: `clamp` is total — an unparsable value yields the default and a
parsed value (including `inf`, `-inf` and `nan`) lands inside `[lo, hi]`;
hence the effective dot scale is in [0.55, 0.92], wash in [0, 0.6] and
suppression budget in [0, 0.18], with defaults 0.78, 0.20, 0.08. -/
theorem clamp_total_and_ranges :
    (∀ (lo hi : ℚ) (d : PFloat), clamp none (.num lo) (.num hi) d = d) ∧
    (∀ (lo hi : ℚ) (d : PFloat), lo ≤ hi →
      ∀ x : PFloat, inRange lo hi (clamp (some x) (.num lo) (.num hi) d)) ∧
    (∀ v : Option PFloat, inRange (55/100) (92/100) (dotParam v)) ∧
    (∀ v : Option PFloat, inRange 0 (60/100) (washParam v)) ∧
    (∀ v : Option PFloat, inRange 0 (18/100) (budgetParam v)) ∧
    dotParam none = .num (78/100) ∧
    washParam none = .num (20/100) ∧
    budgetParam none = .num (8/100) := by
  refine ⟨fun lo hi d => rfl, fun lo hi d h x => clamp_some_mem lo hi d h x,
    ?_, ?_, ?_, rfl, rfl, rfl⟩ <;>
    rintro (_ | x)
  · exact (⟨by norm_num, by norm_num⟩ : inRange (55/100) (92/100) (.num (78/100)))
  · exact clamp_some_mem _ _ _ (by norm_num) x
  · exact (⟨by norm_num, by norm_num⟩ : inRange 0 (60/100) (.num (20/100)))
  · exact clamp_some_mem _ _ _ (by norm_num) x
  · exact (⟨by norm_num, by norm_num⟩ : inRange 0 (18/100) (.num (8/100)))
  · exact clamp_some_mem _ _ _ (by norm_num) x

/-- Instance of `clamp_total_and_ranges`: `nan` clamps into the interval, and
`-inf` as a dot-scale request yields a value in [0.55, 0.92]. -/
theorem clamp_total_and_ranges_witness :
    inRange (1/2) 1 (clamp (some .nan) (.num (1/2)) (.num 1) (.num (3/4))) ∧
    inRange (55/100) (92/100) (dotParam (some .ninf)) ∧
    inRange 0 (18/100) (budgetParam (some .inf)) :=
  ⟨clamp_total_and_ranges.2.1 (1/2) 1 (.num (3/4)) (by norm_num) .nan,
   clamp_total_and_ranges.2.2.1 (some .ninf),
   clamp_total_and_ranges.2.2.2.2.1 (some .inf)⟩

/-- Claim C3: for coordinates inside the symbol, `is_protected` holds exactly
on the union of the three 9×9 finder+separator corner blocks, the timing
strips, the format-information strips, and the alignment boxes; it is a pure
predicate. -/
theorem is_protected_characterization (version r c n : ℤ)
    (hn : n = 17 + 4 * version) (hv1 : 1 ≤ version) (hv2 : version ≤ 40)
    (hr0 : 0 ≤ r) (hr : r < n) (hc0 : 0 ≤ c) (hc : c < n) :
    is_protected r c n version = true ↔ protectedSpec r c n version := by
  have hr1 : r ≤ n - 1 := by omega
  have hc1 : c ≤ n - 1 := by omega
  by_cases hA : in_alignment r c version = true
  · simp [is_protected, protectedSpec, hA]
  · unfold is_protected protectedSpec in_finder_or_separator in_timing
      in_format_info
    simp only [Bool.or_eq_true, decide_eq_true_eq, ge_iff_le, hA,
      Bool.false_eq_true, or_false]
    omega

/-- Instance of `is_protected_characterization` at version 2, at the
alignment-center coordinate (18, 18). -/
theorem is_protected_characterization_witness :
    is_protected 18 18 25 2 = true ↔ protectedSpec 18 18 25 2 :=
  is_protected_characterization 2 18 18 25 (by norm_num) (by norm_num)
    (by norm_num) (by norm_num) (by norm_num) (by norm_num) (by norm_num)

lemma foldl_argmax_go {β : Type} (f : β → ℚ) (l : List β) : ∀ a0 : β,
    (l.foldl (fun best p => if best.1 < f p then (f p, some p) else best)
        ((f a0, some a0) : ℚ × Option β) = (f a0, some a0) ∧
      ∀ q ∈ l, f q ≤ f a0) ∨
    (∃ pre a post, l = pre ++ a :: post ∧
      l.foldl (fun best p => if best.1 < f p then (f p, some p) else best)
          ((f a0, some a0) : ℚ × Option β) = (f a, some a) ∧
      f a0 < f a ∧ (∀ q ∈ pre, f q < f a) ∧ (∀ q ∈ post, f q ≤ f a)) := by
  induction l with
  | nil => exact fun a0 => Or.inl ⟨rfl, by simp⟩
  | cons p l ih =>
    intro a0
    by_cases hp : f a0 < f p
    · have step :
          (p :: l).foldl
              (fun best q => if best.1 < f q then (f q, some q) else best)
              ((f a0, some a0) : ℚ × Option β) =
            l.foldl (fun best q => if best.1 < f q then (f q, some q) else best)
              ((f p, some p) : ℚ × Option β) := by
        simp [List.foldl_cons, hp]
      rcases ih p with ⟨heq, hall⟩ | ⟨pre, a, post, hsplit, heq, hlt, hpre, hpost⟩
      · exact Or.inr ⟨[], p, l, by simp, by rw [step, heq], hp, by simp, hall⟩
      · refine Or.inr ⟨p :: pre, a, post, by simp [hsplit], by rw [step, heq],
          lt_trans hp hlt, ?_, hpost⟩
        intro q hq
        rcases List.mem_cons.mp hq with rfl | hq
        · exact hlt
        · exact hpre q hq
    · have hple : f p ≤ f a0 := not_lt.mp hp
      have step :
          (p :: l).foldl
              (fun best q => if best.1 < f q then (f q, some q) else best)
              ((f a0, some a0) : ℚ × Option β) =
            l.foldl (fun best q => if best.1 < f q then (f q, some q) else best)
              ((f a0, some a0) : ℚ × Option β) := by
        simp [List.foldl_cons, hp]
      rcases ih a0 with ⟨heq, hall⟩ | ⟨pre, a, post, hsplit, heq, hlt, hpre, hpost⟩
      · refine Or.inl ⟨by rw [step, heq], ?_⟩
        intro q hq
        rcases List.mem_cons.mp hq with rfl | hq
        · exact hple
        · exact hall q hq
      · refine Or.inr ⟨p :: pre, a, post, by simp [hsplit], by rw [step, heq],
          hlt, ?_, hpost⟩
        intro q hq
        rcases List.mem_cons.mp hq with rfl | hq
        · exact lt_of_le_of_lt hple hlt
        · exact hpre q hq

lemma foldl_argmax {β : Type} (f : β → ℚ) (l : List β) (b : ℚ)
    (hb : ∀ p ∈ l, b < f p) (hne : l ≠ []) :
    ∃ pre a post, l = pre ++ a :: post ∧
      l.foldl (fun best p => if best.1 < f p then (f p, some p) else best)
          ((b, none) : ℚ × Option β) = (f a, some a) ∧
      (∀ q ∈ pre, f q < f a) ∧ (∀ q ∈ post, f q ≤ f a) := by
  cases l with
  | nil => exact absurd rfl hne
  | cons p l =>
    have hp : b < f p := hb p (by simp)
    have step :
        (p :: l).foldl
            (fun best q => if best.1 < f q then (f q, some q) else best)
            ((b, none) : ℚ × Option β) =
          l.foldl (fun best q => if best.1 < f q then (f q, some q) else best)
            ((f p, some p) : ℚ × Option β) := by
      simp [List.foldl_cons, hp]
    rcases foldl_argmax_go f l p with ⟨heq, hall⟩ |
      ⟨pre, a, post, hsplit, heq, hlt, hpre, hpost⟩
    · exact ⟨[], p, l, rfl, by rw [step, heq], by simp, hall⟩
    · refine ⟨p :: pre, a, post, by simp [hsplit], by rw [step, heq], ?_, hpost⟩
      intro q hq
      rcases List.mem_cons.mp hq with rfl | hq
      · exact hlt
      · exact hpre q hq

lemma foldl_add_nonneg (g : ℕ × ℕ → ℚ) (hg : ∀ p, 0 ≤ g p) :
    ∀ (l : List (ℕ × ℕ)) (s : ℚ), 0 ≤ s →
      0 ≤ l.foldl (fun s p => s + g p) s := by
  intro l
  induction l with
  | nil => exact fun s hs => hs
  | cons p l ih => exact fun s hs => ih (s + g p) (by linarith [hg p])

lemma score_mask_nonneg (m : List (List Bool)) (luma : List (List ℚ))
    (version : ℤ)
    (hl : ∀ r c, 0 ≤ lumaAt luma r c ∧ lumaAt luma r c ≤ 255) :
    0 ≤ score_mask m luma version := by
  unfold score_mask
  apply div_nonneg
  · refine foldl_add_nonneg _ ?_ _ 0 le_rfl
    intro p
    unfold cellScore
    rcases hl p.1 p.2 with ⟨h0, h255⟩
    split_ifs
    · linarith
    · have : (mkRat 35 100 : ℚ) = 35 / 100 := by norm_num
      rw [this]
      positivity
  · exact le_trans zero_le_one (le_max_left _ _)

lemma foldl_add_eq_sum (g : ℕ × ℕ → ℚ) (l : List (ℕ × ℕ)) :
    ∀ s : ℚ, l.foldl (fun s p => s + g p) s = s + (l.map g).sum := by
  induction l with
  | nil => intro s; simp
  | cons p l ih => intro s; simp [ih]; ring

lemma enum_fst_lt_of_mem_pre {α : Type} (l : List α)
    (pre post : List (ℕ × α)) (a : ℕ × α) (h : l.enum = pre ++ a :: post) :
    a.1 = pre.length ∧ (∀ q ∈ pre, q.1 < pre.length) ∧
      (∀ q ∈ post, pre.length < q.1) := by
  have hfst : ∀ (k : ℕ) (hk : k < l.enum.length), (l.enum[k]).1 = k := by
    intro k hk
    have hk2 : k < l.length := by simpa [List.enum_length] using hk
    rw [List.getElem_enum]
  refine ⟨?_, ?_, ?_⟩
  · have hk : pre.length < l.enum.length := by rw [h]; simp
    have ha : l.enum[pre.length] = a := by
      simp [h, List.getElem_append_right, le_refl]
    rw [← ha, hfst _ hk]
  · intro q hq
    obtain ⟨k, hk, rfl⟩ := List.mem_iff_getElem.mp hq
    have hk2 : k < l.enum.length := by rw [h]; simp; omega
    have : l.enum[k] = pre[k] := by
      simp [h, List.getElem_append_left, hk]
    rw [← this, hfst _ hk2]
    exact hk
  · intro q hq
    obtain ⟨k, hk, rfl⟩ := List.mem_iff_getElem.mp hq
    have hk2 : pre.length + 1 + k < l.enum.length := by rw [h]; simp; omega
    have : l.enum[pre.length + 1 + k] = post[k] := by
      simp only [h]
      rw [List.getElem_append_right (by omega)]
      have e2 : pre.length + 1 + k - pre.length = k + 1 := by omega
      simp [e2]
    rw [← this, hfst _ hk2]
    omega

/-- Claim C5: the mask-selection loop returns the candidate whose normalized
score is maximal, where a candidate scores the sum over non-protected modules
of `255 - luma` (dark) or `0.35 * luma` (light) divided by the number of
non-protected modules scored; when several candidates attain the maximum the
first (lowest) mask index wins. -/
theorem mask_selection (cands : List (List (List Bool) × ℤ))
    (luma : List (List ℚ)) (h8 : cands.length = 8)
    (hl : ∀ r c, 0 ≤ lumaAt luma r c ∧ lumaAt luma r c ≤ 255) :
    ∃ (i : ℕ) (mv : List (List Bool) × ℤ),
      cands[i]? = some mv ∧
      select_best cands luma = (score_mask mv.1 luma mv.2, some (i, mv)) ∧
      (∀ (j : ℕ) (mv2 : List (List Bool) × ℤ), cands[j]? = some mv2 →
        score_mask mv2.1 luma mv2.2 ≤ score_mask mv.1 luma mv.2) ∧
      (∀ (j : ℕ) (mv2 : List (List Bool) × ℤ), cands[j]? = some mv2 → j < i →
        score_mask mv2.1 luma mv2.2 < score_mask mv.1 luma mv.2) ∧
      (∀ (m : List (List Bool)) (v : ℤ), unprotectedCells m.length v ≠ [] →
        score_mask m luma v =
          ((unprotectedCells m.length v).map (cellScore m luma)).sum /
            ((unprotectedCells m.length v).length : ℚ)) := by
  have hb : ∀ p ∈ cands.enum,
      (-(10 ^ 18 : ℚ)) < score_mask p.2.1 luma p.2.2 := by
    intro p _
    have h0 := score_mask_nonneg p.2.1 luma p.2.2 hl
    have hneg : (-(10 ^ 18 : ℚ)) < 0 := by norm_num
    linarith
  have hne : cands.enum ≠ [] := by
    intro hcon
    have hlen : cands.enum.length = 0 := by rw [hcon]; rfl
    rw [List.enum_length, h8] at hlen
    omega
  obtain ⟨pre, a, post, hsplit, heq, hpre, hpost⟩ :=
    foldl_argmax (fun p => score_mask p.2.1 luma p.2.2) cands.enum
      (-(10 ^ 18 : ℚ)) hb hne
  obtain ⟨hafst, hprelt, hpostgt⟩ := enum_fst_lt_of_mem_pre cands pre post a hsplit
  refine ⟨a.1, a.2, ?_, ?_, ?_, ?_, ?_⟩
  · exact (List.mk_mem_enum_iff_getElem?).mp (by rw [hsplit]; simp)
  · exact heq
  · intro j mv2 hj
    have hmem : (j, mv2) ∈ cands.enum := (List.mk_mem_enum_iff_getElem?).mpr hj
    rw [hsplit] at hmem
    rcases List.mem_append.mp hmem with hmem | hmem
    · have h := hpre _ hmem
      simp only at h
      exact le_of_lt h
    · rcases List.mem_cons.mp hmem with heq2 | hmem
      · have hsnd : mv2 = a.2 := by rw [← heq2]
        rw [hsnd]
      · have h := hpost _ hmem
        simp only at h
        exact h
  · intro j mv2 hj hjlt
    have hmem : (j, mv2) ∈ cands.enum := (List.mk_mem_enum_iff_getElem?).mpr hj
    rw [hsplit] at hmem
    rcases List.mem_append.mp hmem with hmem | hmem
    · have h := hpre _ hmem
      simp only at h
      exact h
    · exfalso
      rcases List.mem_cons.mp hmem with heq2 | hmem
      · have hfst2 : j = a.1 := by rw [← heq2]
        omega
      · have := hpostgt _ hmem
        omega
  · intro m v hne2
    unfold score_mask
    rw [foldl_add_eq_sum, zero_add]
    congr 1
    have hpos : 0 < (unprotectedCells m.length v).length :=
      List.length_pos.mpr hne2
    have h1 : (1 : ℚ) ≤ ((unprotectedCells m.length v).length : ℚ) := by
      exact_mod_cast hpos
    rw [max_eq_right h1]

/-- Instance of `mask_selection` on eight trivial 1×1 candidates and an empty
luminance field. -/
theorem mask_selection_witness :
    ∃ (i : ℕ) (mv : List (List Bool) × ℤ),
      (List.replicate 8 (([[true]] : List (List Bool)), (1 : ℤ)))[i]? =
        some mv ∧
      select_best (List.replicate 8 ([[true]], 1)) [] =
        (score_mask mv.1 [] mv.2, some (i, mv)) ∧
      (∀ (j : ℕ) (mv2 : List (List Bool) × ℤ),
        (List.replicate 8 (([[true]] : List (List Bool)), (1 : ℤ)))[j]? =
          some mv2 →
        score_mask mv2.1 [] mv2.2 ≤ score_mask mv.1 [] mv.2) ∧
      (∀ (j : ℕ) (mv2 : List (List Bool) × ℤ),
        (List.replicate 8 (([[true]] : List (List Bool)), (1 : ℤ)))[j]? =
          some mv2 → j < i →
        score_mask mv2.1 [] mv2.2 < score_mask mv.1 [] mv.2) ∧
      (∀ (m : List (List Bool)) (v : ℤ), unprotectedCells m.length v ≠ [] →
        score_mask m [] v =
          ((unprotectedCells m.length v).map (cellScore m [])).sum /
            ((unprotectedCells m.length v).length : ℚ)) :=
  mask_selection (List.replicate 8 ([[true]], 1)) [] (by simp)
    (by intro r c; constructor <;> simp [lumaAt] <;> norm_num)

lemma mem_suppression_candidates (matrix : List (List Bool))
    (luma : List (List ℚ)) (version : ℤ) (t : ℚ × ℕ × ℕ)
    (ht : t ∈ suppression_candidates matrix luma version) :
    matAt matrix t.2.1 t.2.2 = true ∧
      is_protected t.2.1 t.2.2 matrix.length version = false ∧
      t.1 = lumaAt luma t.2.1 t.2.2 := by
  unfold suppression_candidates at ht
  rcases List.mem_filterMap.mp ht with ⟨p, hp, hf⟩
  by_cases hc : (matAt matrix p.1 p.2 &&
      !(is_protected p.1 p.2 matrix.length version)) = true
  · rw [if_pos hc] at hf
    rcases (Bool.and_eq_true _ _).mp hc with ⟨hdark, hprot⟩
    cases hf
    refine ⟨hdark, ?_, rfl⟩
    simpa using hprot
  · rw [if_neg hc] at hf
    cases hf

lemma pairwise_take_drop {α : Type} {R : α → α → Prop} (l : List α) (k : ℕ)
    (h : l.Pairwise R) : ∀ a ∈ l.take k, ∀ b ∈ l.drop k, R a b := by
  have hsplit := List.take_append_drop k l
  rw [← hsplit] at h
  exact (List.pairwise_append.mp h).2.2

/-- Claim C2: for any budget in [0, 0.18], the number of suppressed modules
never exceeds `floor(eligible_dark_count * budget)` nor 2500, every
suppressed module is dark and non-protected, and every suppressed module has
local luminance at least that of every eligible module left untouched
(brightest background first). -/
theorem suppression_bounded (matrix : List (List Bool)) (luma : List (List ℚ))
    (version : ℤ) (budget : ℚ) (h0 : 0 ≤ budget) (h18 : budget ≤ 18/100) :
    ((removed_modules matrix luma version budget).length : ℤ) ≤
        ⌊((suppression_candidates matrix luma version).length : ℚ) * budget⌋ ∧
      (removed_modules matrix luma version budget).length ≤ 2500 ∧
      (∀ p ∈ removed_modules matrix luma version budget,
        matAt matrix p.1 p.2 = true ∧
        is_protected p.1 p.2 matrix.length version = false) ∧
      (∀ p ∈ removed_modules matrix luma version budget,
        ∀ q ∈ suppression_candidates matrix luma version,
          q.2 ∉ removed_modules matrix luma version budget →
          q.1 ≤ lumaAt luma p.1 p.2) := by
  by_cases hpos : 0 < budget
  case neg =>
    have hrem : removed_modules matrix luma version budget = [] := by
      unfold removed_modules
      rw [if_neg hpos]
    rw [hrem]
    refine ⟨?_, by simp, by simp, by simp⟩
    simp only [List.length_nil, Int.ofNat_zero, Nat.cast_zero]
    positivity
  case pos =>
    set cand := suppression_candidates matrix luma version with hcand
    set sorted := cand.mergeSort (fun a b => decide (b.1 ≤ a.1)) with hsorted
    set k := min (pyInt ((cand.length : ℚ) * budget)).toNat 2500 with hk
    have hrem : removed_modules matrix luma version budget =
        (sorted.take k).map (fun t => t.2) := by
      unfold removed_modules
      rw [if_pos hpos]
    have hperm : sorted.Perm cand := List.mergeSort_perm cand _
    have hfloor : pyInt ((cand.length : ℚ) * budget) =
        ⌊(cand.length : ℚ) * budget⌋ := by
      unfold pyInt
      rw [if_neg]
      push_neg
      positivity
    have hfl0 : 0 ≤ ⌊(cand.length : ℚ) * budget⌋ := by
      apply Int.floor_nonneg.mpr
      positivity
    have hlen : (removed_modules matrix luma version budget).length ≤ k := by
      rw [hrem, List.length_map]
      exact le_trans (List.length_take_le _ _) (le_refl _)
    refine ⟨?_, ?_, ?_, ?_⟩
    · have h1 : (removed_modules matrix luma version budget).length ≤
          (pyInt ((cand.length : ℚ) * budget)).toNat :=
        le_trans hlen (min_le_left _ _)
      have h2 : ((pyInt ((cand.length : ℚ) * budget)).toNat : ℤ) =
          ⌊(cand.length : ℚ) * budget⌋ := by
        rw [hfloor] at *
        exact Int.toNat_of_nonneg hfl0
      omega
    · exact le_trans hlen (min_le_right _ _)
    · intro p hp
      rw [hrem] at hp
      rcases List.mem_map.mp hp with ⟨t, ht, rfl⟩
      have htc : t ∈ cand := hperm.mem_iff.mp (List.mem_of_mem_take ht)
      exact ⟨(mem_suppression_candidates matrix luma version t htc).1,
        (mem_suppression_candidates matrix luma version t htc).2.1⟩
    · intro p hp q hq hqnot
      rw [hrem] at hp
      rcases List.mem_map.mp hp with ⟨t, ht, rfl⟩
      have htc : t ∈ cand := hperm.mem_iff.mp (List.mem_of_mem_take ht)
      have hq2 : q ∈ sorted := hperm.mem_iff.mpr hq
      have hqdrop : q ∈ sorted.drop k := by
        have hq3 : q ∈ sorted.take k ++ sorted.drop k := by
          rw [List.take_append_drop]
          exact hq2
        rcases List.mem_append.mp hq3 with hq4 | hq4
        · exact absurd (List.mem_map_of_mem (fun t => t.2) hq4)
            (by rw [← hrem] at *; exact hqnot)
        · exact hq4
      have htrans : ∀ a b c : ℚ × ℕ × ℕ, decide (b.1 ≤ a.1) = true →
          decide (c.1 ≤ b.1) = true → decide (c.1 ≤ a.1) = true := by
        intro a b c hab hbc
        exact decide_eq_true
          (le_trans (of_decide_eq_true hbc) (of_decide_eq_true hab))
      have htotal : ∀ a b : ℚ × ℕ × ℕ,
          (decide (b.1 ≤ a.1) || decide (a.1 ≤ b.1)) = true := by
        intro a b
        rcases le_total b.1 a.1 with h | h <;> simp [h]
      have hsort :=
        @List.sorted_mergeSort (ℚ × ℕ × ℕ) (fun a b => decide (b.1 ≤ a.1))
          htrans htotal cand
      rw [← hsorted] at hsort
      have hcross := pairwise_take_drop sorted k hsort t ht q hqdrop
      have hle : q.1 ≤ t.1 := of_decide_eq_true hcross
      have ht1 : t.1 = lumaAt luma t.2.1 t.2.2 :=
        (mem_suppression_candidates matrix luma version t htc).2.2
      rw [← ht1]
      exact hle

/-- Instance of `suppression_bounded` at a 1×1 matrix, empty luminance field
and the maximal budget 0.18. -/
theorem suppression_bounded_witness :
    ((removed_modules [[true]] [] 1 (18/100)).length : ℤ) ≤
        ⌊((suppression_candidates [[true]] [] 1).length : ℚ) * (18/100)⌋ ∧
      (removed_modules [[true]] [] 1 (18/100)).length ≤ 2500 ∧
      (∀ p ∈ removed_modules [[true]] [] 1 (18/100),
        matAt [[true]] p.1 p.2 = true ∧
        is_protected p.1 p.2 (List.length [[true]]) 1 = false) ∧
      (∀ p ∈ removed_modules [[true]] [] 1 (18/100),
        ∀ q ∈ suppression_candidates [[true]] [] 1,
          q.2 ∉ removed_modules [[true]] [] 1 (18/100) →
          q.1 ≤ lumaAt [] p.1 p.2) :=
  suppression_bounded [[true]] [] 1 (18/100) (by norm_num) (by norm_num)

lemma foldl_paint_white (p : ℤ × ℤ) :
    ∀ (cmds : List (Shape × (ℕ × ℕ × ℕ))) (col : ℕ × ℕ × ℕ),
      (∀ cmd ∈ cmds, cmd.2 = (255, 255, 255)) →
      ((∃ cmd ∈ cmds, covers cmd.1 p = true) ∨ col = (255, 255, 255)) →
      cmds.foldl (fun col cmd => if covers cmd.1 p then cmd.2 else col) col =
        (255, 255, 255) := by
  intro cmds
  induction cmds with
  | nil =>
    intro col _ hcov
    rcases hcov with ⟨cmd, hmem, _⟩ | hcol
    · exact absurd hmem (List.not_mem_nil cmd)
    · exact hcol
  | cons cmd rest ih =>
    intro col hall hcov
    rw [List.foldl_cons]
    by_cases hc : covers cmd.1 p = true
    · refine ih _ (fun c hc2 => hall c (List.mem_cons_of_mem _ hc2)) (Or.inr ?_)
      rw [if_pos hc]
      exact hall cmd (List.mem_cons_self _ _)
    · rw [if_neg hc]
      refine ih _ (fun c hc2 => hall c (List.mem_cons_of_mem _ hc2)) ?_
      rcases hcov with ⟨cmd2, hmem, hcov2⟩ | hcol
      · rcases List.mem_cons.mp hmem with rfl | hmem2
        · exact absurd hcov2 hc
        · exact Or.inl ⟨cmd2, hmem2, hcov2⟩
      · exact Or.inr hcol

lemma mem_allCells (n r c : ℕ) (hr : r < n) (hc : c < n) :
    (r, c) ∈ allCells n := by
  unfold allCells
  rw [List.mem_flatMap]
  exact ⟨r, List.mem_range.mpr hr, List.mem_map.mpr
    ⟨c, List.mem_range.mpr hc, rfl⟩⟩

/-- Claim C1: with `quiet = 6`, `box = 16`, every pixel of the outer
`quiet * box`-wide border band of the final raster is pure white
(255, 255, 255), for any matrix, artwork (including fully black), removal
set and dot scale; moreover the artwork only ever affects pixels of the
inner module-area square, and the quiet-zone overwrite runs after all
module draws, so it always wins. -/
theorem quiet_zone_pure_white (matrix : List (List Bool)) (version : ℤ)
    (removedL : List (ℕ × ℕ)) (dot_scale : ℚ)
    (art : Option (ℤ × ℤ → ℕ × ℕ × ℕ × ℕ)) (p : ℤ × ℤ)
    (hin : 0 ≤ p.1 ∧ p.1 < ((matrix.length : ℤ) + 2 * quiet) * box ∧
      0 ≤ p.2 ∧ p.2 < ((matrix.length : ℤ) + 2 * quiet) * box)
    (hband : p.1 < quiet * box ∨
      ((matrix.length : ℤ) + 2 * quiet) * box - quiet * box ≤ p.1 ∨
      p.2 < quiet * box ∨
      ((matrix.length : ℤ) + 2 * quiet) * box - quiet * box ≤ p.2) :
    finalRaster matrix version removedL dot_scale art p = (255, 255, 255) ∧
      ∀ q : ℤ × ℤ, baseCanvas matrix.length art q ≠ (255, 255, 255) →
        quiet * box ≤ q.1 ∧ q.1 < quiet * box + (matrix.length : ℤ) * box ∧
        quiet * box ≤ q.2 ∧ q.2 < quiet * box + (matrix.length : ℤ) * box := by
  constructor
  · unfold finalRaster paint
    rw [List.foldl_append]
    apply foldl_paint_white
    · intro cmd hmem
      simp only [quietCmds, List.mem_cons, List.not_mem_nil, or_false]
        at hmem
      rcases hmem with rfl | rfl | rfl | rfl <;> rfl
    · left
      obtain ⟨h1, h2, h3, h4⟩ := hin
      rcases hband with h | h | h | h
      · refine ⟨(Shape.rect 0 0 (quiet * box)
          (((matrix.length : ℤ) + 2 * quiet) * box), (255, 255, 255)),
          by unfold quietCmds; simp, ?_⟩
        simp only [covers, decide_eq_true_eq, quiet, box] at *
        omega
      · refine ⟨(Shape.rect
          (((matrix.length : ℤ) + 2 * quiet) * box - quiet * box) 0
          (((matrix.length : ℤ) + 2 * quiet) * box)
          (((matrix.length : ℤ) + 2 * quiet) * box), (255, 255, 255)),
          by unfold quietCmds; simp, ?_⟩
        simp only [covers, decide_eq_true_eq, quiet, box] at *
        omega
      · refine ⟨(Shape.rect 0 0 (((matrix.length : ℤ) + 2 * quiet) * box)
          (quiet * box), (255, 255, 255)),
          by unfold quietCmds; simp, ?_⟩
        simp only [covers, decide_eq_true_eq, quiet, box] at *
        omega
      · refine ⟨(Shape.rect 0
          (((matrix.length : ℤ) + 2 * quiet) * box - quiet * box)
          (((matrix.length : ℤ) + 2 * quiet) * box)
          (((matrix.length : ℤ) + 2 * quiet) * box), (255, 255, 255)),
          by unfold quietCmds; simp, ?_⟩
        simp only [covers, decide_eq_true_eq, quiet, box] at *
        omega
  · intro q hq
    cases art with
    | none => exact absurd rfl hq
    | some a =>
      simp only [baseCanvas] at hq
      by_cases hin2 : quiet * box ≤ q.1 ∧
          q.1 < quiet * box + (matrix.length : ℤ) * box ∧
          quiet * box ≤ q.2 ∧ q.2 < quiet * box + (matrix.length : ℤ) * box
      · exact hin2
      · rw [if_neg hin2] at hq
        exact absurd rfl hq

/-- Instance of `quiet_zone_pure_white` at the top-left pixel of a tiny
symbol with no artwork. -/
theorem quiet_zone_pure_white_witness :
    finalRaster [[true]] 1 [] (78/100) none (0, 0) = (255, 255, 255) ∧
      ∀ q : ℤ × ℤ,
        baseCanvas (List.length [[true]]) none q ≠ (255, 255, 255) →
        quiet * box ≤ q.1 ∧
        q.1 < quiet * box + ((List.length [[true]]) : ℤ) * box ∧
        quiet * box ≤ q.2 ∧
        q.2 < quiet * box + ((List.length [[true]]) : ℤ) * box :=
  quiet_zone_pure_white [[true]] 1 [] (78/100) none (0, 0)
    (by refine ⟨le_refl 0, ?_, le_refl 0, ?_⟩ <;> decide)
    (Or.inl (by decide))

/-- Claim C10: every light non-protected module unconditionally receives a
white dot centred in its module cell (equal inset on all four sides) with
scale `max(0.45, min(0.88, dot_scale * 0.88))`; light modules are never
omitted. -/
theorem light_module_white_dot (matrix : List (List Bool)) (version : ℤ)
    (removedL : List (ℕ × ℕ)) (dot_scale : ℚ) (r c : ℕ)
    (hr : r < matrix.length) (hc : c < matrix.length)
    (hprot : is_protected r c matrix.length version = false)
    (hlight : matAt matrix r c = false) :
    cellCmds matrix version removedL dot_scale r c =
      [(dotShape ((quiet + c) * box) ((quiet + r) * box)
          ((quiet + c) * box + box) ((quiet + r) * box + box)
          (max (45/100) (min (88/100) (dot_scale * (88/100)))),
        (255, 255, 255))] ∧
      (dotShape ((quiet + c) * box) ((quiet + r) * box)
          ((quiet + c) * box + box) ((quiet + r) * box + box)
          (max (45/100) (min (88/100) (dot_scale * (88/100)))),
        (255, 255, 255)) ∈
        renderCmds matrix version removedL dot_scale ∧
      dotShape ((quiet + c) * box) ((quiet + r) * box)
          ((quiet + c) * box + box) ((quiet + r) * box + box)
          (max (45/100) (min (88/100) (dot_scale * (88/100)))) =
        Shape.ellipse
          ((((quiet + c) * box : ℤ) : ℚ) +
            (1 - max (45/100) (min (88/100) (dot_scale * (88/100)))) *
              (box : ℚ) / 2)
          ((((quiet + r) * box : ℤ) : ℚ) +
            (1 - max (45/100) (min (88/100) (dot_scale * (88/100)))) *
              (box : ℚ) / 2)
          ((((quiet + c) * box + box : ℤ) : ℚ) -
            (1 - max (45/100) (min (88/100) (dot_scale * (88/100)))) *
              (box : ℚ) / 2)
          ((((quiet + r) * box + box : ℤ) : ℚ) -
            (1 - max (45/100) (min (88/100) (dot_scale * (88/100)))) *
              (box : ℚ) / 2) := by
  have h1 : cellCmds matrix version removedL dot_scale r c =
      [(dotShape ((quiet + c) * box) ((quiet + r) * box)
          ((quiet + c) * box + box) ((quiet + r) * box + box)
          (max (45/100) (min (88/100) (dot_scale * (88/100)))),
        (255, 255, 255))] := by
    unfold cellCmds
    simp [hprot, hlight]
  refine ⟨h1, ?_, rfl⟩
  unfold renderCmds
  rw [List.mem_flatMap]
  refine ⟨(r, c), mem_allCells matrix.length r c hr hc, ?_⟩
  simp [h1]

/-- Instance of `light_module_white_dot` at the unprotected light cell
(9, 9) of a 10×10 all-light matrix. -/
theorem light_module_white_dot_witness :
    cellCmds (List.replicate 10 (List.replicate 10 false)) 1 [] (78/100) 9 9 =
      [(dotShape ((quiet + 9) * box) ((quiet + 9) * box)
          ((quiet + 9) * box + box) ((quiet + 9) * box + box)
          (max (45/100) (min (88/100) ((78/100) * (88/100)))),
        (255, 255, 255))] ∧
      (dotShape ((quiet + 9) * box) ((quiet + 9) * box)
          ((quiet + 9) * box + box) ((quiet + 9) * box + box)
          (max (45/100) (min (88/100) ((78/100) * (88/100)))),
        (255, 255, 255)) ∈
        renderCmds (List.replicate 10 (List.replicate 10 false)) 1 []
          (78/100) ∧
      dotShape ((quiet + 9) * box) ((quiet + 9) * box)
          ((quiet + 9) * box + box) ((quiet + 9) * box + box)
          (max (45/100) (min (88/100) ((78/100) * (88/100)))) =
        Shape.ellipse
          ((((quiet + 9) * box : ℤ) : ℚ) +
            (1 - max (45/100) (min (88/100) ((78/100) * (88/100)))) *
              (box : ℚ) / 2)
          ((((quiet + 9) * box : ℤ) : ℚ) +
            (1 - max (45/100) (min (88/100) ((78/100) * (88/100)))) *
              (box : ℚ) / 2)
          ((((quiet + 9) * box + box : ℤ) : ℚ) -
            (1 - max (45/100) (min (88/100) ((78/100) * (88/100)))) *
              (box : ℚ) / 2)
          ((((quiet + 9) * box + box : ℤ) : ℚ) -
            (1 - max (45/100) (min (88/100) ((78/100) * (88/100)))) *
              (box : ℚ) / 2) :=
  light_module_white_dot (List.replicate 10 (List.replicate 10 false)) 1 []
    (78/100) 9 9 (by decide) (by decide) (by decide) (by decide)

lemma bbox_nontransparent_black (img : Img)
    (hpx : ∀ x y, img.px x y = (0, 0, 0, 255))
    (hw : 1 ≤ img.w) (hh : 1 ≤ img.h) :
    bbox_nontransparent img 8 = some (0, 0, img.w, img.h) := by
  have hany : ∀ x,
      ((List.range img.h).any (fun y => 8 < (img.px x y).2.2.2)) = true := by
    intro x
    rw [List.any_eq_true]
    refine ⟨0, List.mem_range.mpr (by omega), ?_⟩
    rw [hpx]
    decide
  have hany2 : ∀ y,
      ((List.range img.w).any (fun x => 8 < (img.px x y).2.2.2)) = true := by
    intro y
    rw [List.any_eq_true]
    refine ⟨0, List.mem_range.mpr (by omega), ?_⟩
    rw [hpx]
    decide
  have hfx : (List.range img.w).filter
      (fun x => (List.range img.h).any (fun y => 8 < (img.px x y).2.2.2)) =
      List.range img.w :=
    List.filter_eq_self.mpr (fun a _ => hany a)
  have hfy : (List.range img.h).filter
      (fun y => (List.range img.w).any (fun x => 8 < (img.px x y).2.2.2)) =
      List.range img.h :=
    List.filter_eq_self.mpr (fun a _ => hany2 a)
  obtain ⟨w1, hw1⟩ : ∃ w1, img.w = w1 + 1 := ⟨img.w - 1, by omega⟩
  obtain ⟨h1, hh1⟩ : ∃ h1, img.h = h1 + 1 := ⟨img.h - 1, by omega⟩
  unfold bbox_nontransparent
  rw [hfx, hfy, if_neg]
  · congr 1
    rw [hw1, hh1, List.head?_range, List.head?_range, List.range_succ,
      List.range_succ, List.getLast?_concat, List.getLast?_concat]
    simp
  · rw [hw1, hh1]
    simp [List.isEmpty_iff, List.range_eq_nil]

lemma bbox_row_black (img : Img)
    (hpx : ∀ x y, img.px x y = (0, 0, 0, 255)) (y : ℕ) :
    ∀ (w : ℕ), 1 ≤ w → ∀ acc : ℤ × ℤ × ℤ × ℤ,
      ((List.range w).map (fun x => (x, y))).foldl (bboxStep img 250) acc =
        (min acc.1 0, min acc.2.1 y, max acc.2.2.1 ((w : ℤ) - 1),
          max acc.2.2.2 y) := by
  have hstep : ∀ (x : ℕ) (acc : ℤ × ℤ × ℤ × ℤ),
      bboxStep img 250 acc (x, y) =
        (min acc.1 x, min acc.2.1 y, max acc.2.2.1 x, max acc.2.2.2 y) := by
    intro x acc
    unfold bboxStep
    rw [hpx]
    rw [if_neg (by decide), if_pos (by simp only [lumNoAlpha]; norm_num [Rat.mkRat_eq_div])]
  intro w
  induction w with
  | zero => omega
  | succ k ih =>
    intro _ acc
    rw [List.range_succ, List.map_append, List.foldl_append]
    by_cases hk : 1 ≤ k
    · rw [ih hk acc]
      simp only [List.map_cons, List.map_nil, List.foldl_cons, List.foldl_nil]
      rw [hstep]
      simp only [Prod.mk.injEq]
      refine ⟨?_, ?_, ?_, ?_⟩ <;>
        (try simp only [min_def, max_def]) <;>
        (try split_ifs) <;>
        omega
    · have hk0 : k = 0 := by omega
      subst hk0
      simp only [List.range_zero, List.map_nil, List.foldl_nil,
        List.map_cons, List.foldl_cons]
      rw [hstep]
      simp only [List.foldl_nil, Prod.mk.injEq]
      refine ⟨?_, ?_, ?_, ?_⟩ <;>
        (try simp only [min_def, max_def]) <;>
        (try split_ifs) <;>
        omega

lemma bbox_rows_black (img : Img)
    (hpx : ∀ x y, img.px x y = (0, 0, 0, 255)) (hw : 1 ≤ img.w) :
    ∀ (k : ℕ), 1 ≤ k →
      ((List.range k).flatMap
          (fun y => (List.range img.w).map (fun x => (x, y)))).foldl
        (bboxStep img 250) ((img.w : ℤ), (img.h : ℤ), -1, -1) =
      (0, 0, (img.w : ℤ) - 1, (k : ℤ) - 1) := by
  intro k
  induction k with
  | zero => omega
  | succ j ih =>
    intro _
    rw [List.range_succ, List.flatMap_append, List.foldl_append]
    by_cases hj : 1 ≤ j
    · rw [ih hj]
      simp only [List.flatMap_cons, List.flatMap_nil, List.append_nil]
      rw [bbox_row_black img hpx j img.w hw]
      simp only [Prod.mk.injEq]
      refine ⟨?_, ?_, ?_, ?_⟩ <;>
        (try simp only [min_def, max_def]) <;>
        (try split_ifs) <;>
        omega
    · have hj0 : j = 0 := by omega
      subst hj0
      simp only [List.range_zero, List.flatMap_nil, List.foldl_nil,
        List.flatMap_cons, List.append_nil]
      rw [bbox_row_black img hpx 0 img.w hw]
      simp only [Prod.mk.injEq]
      refine ⟨?_, ?_, ?_, ?_⟩ <;>
        (try simp only [min_def, max_def]) <;>
        (try split_ifs) <;>
        omega

lemma bbox_nonwhite_black (img : Img)
    (hpx : ∀ x y, img.px x y = (0, 0, 0, 255))
    (hw : 1 ≤ img.w) (hh : 1 ≤ img.h) :
    bbox_nonwhite img 250 = some (0, 0, img.w, img.h) := by
  unfold bbox_nonwhite
  rw [bbox_rows_black img hpx hw img.h hh]
  simp only
  rw [if_neg (by omega)]
  have e1 : ((img.w : ℤ) - 1 + 1).toNat = img.w := by omega
  have e2 : ((img.h : ℤ) - 1 + 1).toNat = img.h := by omega
  rw [e1, e2]
  rfl

lemma trim_black (img : Img)
    (hpx : ∀ x y, img.px x y = (0, 0, 0, 255))
    (hw : 1 ≤ img.w) (hh : 1 ≤ img.h) :
    (trimArtwork2 (trimArtwork img)).w = img.w ∧
      (trimArtwork2 (trimArtwork img)).h = img.h := by
  have h1 : trimArtwork img = crop img (0, 0, img.w, img.h) := by
    unfold trimArtwork
    rw [bbox_nontransparent_black img hpx hw hh]
  have h2 : (trimArtwork img).w = img.w := by rw [h1]; rfl
  have h3 : (trimArtwork img).h = img.h := by rw [h1]; rfl
  have h4 : ∀ x y, (trimArtwork img).px x y = (0, 0, 0, 255) := by
    intro x y
    rw [h1]
    exact hpx (x + 0) (y + 0)
  have h5 : bbox_nonwhite (trimArtwork img) 250 =
      some (0, 0, img.w, img.h) := by
    rw [show some (0, 0, img.w, img.h) =
      some (0, 0, (trimArtwork img).w, (trimArtwork img).h) by
      rw [h2, h3]]
    exact bbox_nonwhite_black (trimArtwork img) h4 (by omega) (by omega)
  have h6 : trimArtwork2 (trimArtwork img) = trimArtwork img := by
    unfold trimArtwork2
    rw [h5]
    show (if img.w - 0 < (trimArtwork img).w ∨
        img.h - 0 < (trimArtwork img).h then
      crop (trimArtwork img) (0, 0, img.w, img.h) else trimArtwork img) =
      trimArtwork img
    rw [if_neg]
    rw [h2, h3]
    omega
  rw [h6, h2, h3]
  exact ⟨rfl, rfl⟩

lemma pyRound_natCast (n : ℕ) : pyRound (n : ℚ) = n := by
  unfold pyRound
  rw [Int.floor_natCast]
  have h0 : (n : ℚ) - ((n : ℤ) : ℚ) = 0 := by push_cast; ring
  rw [h0, if_pos (by decide)]

lemma pasteRGBA_px_outside (base src : Img) (ox oy x y : ℕ)
    (h : ¬(ox ≤ x ∧ x < ox + src.w ∧ oy ≤ y ∧ y < oy + src.h)) :
    (pasteRGBA base src ox oy).px x y = base.px x y := if_neg h

/-- Claim C9: `normalize_artwork_into_square` always returns a square of
exactly `side × side`; it fits the trimmed source with a single
aspect-preserving scale factor under which the larger dimension lands
exactly on the square side; and a 400×100 source with no trimmable padding
normalized into an 800×800 target becomes an 800×200 content region pasted
centred at vertical offset 300, with transparent 300-pixel bands above and
below. -/
theorem normalize_square_contain :
    (∀ (art : Img) (side : ℕ),
      (normalize_artwork_into_square art side).w = side ∧
      (normalize_artwork_into_square art side).h = side) ∧
    (∀ (art : Img) (side : ℕ), 1 ≤ side →
      1 ≤ (trimArtwork2 (trimArtwork art)).w →
      1 ≤ (trimArtwork2 (trimArtwork art)).h →
      (((trimArtwork2 (trimArtwork art)).h ≤
          (trimArtwork2 (trimArtwork art)).w →
        max 1 (pyRound (((trimArtwork2 (trimArtwork art)).w : ℚ) *
          min ((side : ℚ) / ((trimArtwork2 (trimArtwork art)).w : ℚ))
            ((side : ℚ) / ((trimArtwork2 (trimArtwork art)).h : ℚ)))).toNat =
          side) ∧
      ((trimArtwork2 (trimArtwork art)).w ≤
          (trimArtwork2 (trimArtwork art)).h →
        max 1 (pyRound (((trimArtwork2 (trimArtwork art)).h : ℚ) *
          min ((side : ℚ) / ((trimArtwork2 (trimArtwork art)).w : ℚ))
            ((side : ℚ) / ((trimArtwork2 (trimArtwork art)).h : ℚ)))).toNat =
          side))) ∧
    (∀ art : Img,
      (trimArtwork2 (trimArtwork art)).w = 400 →
      (trimArtwork2 (trimArtwork art)).h = 100 →
      normalize_artwork_into_square art 800 =
        pasteRGBA ⟨800, 800, fun _ _ => (0, 0, 0, 0)⟩
          (resizeImg (trimArtwork2 (trimArtwork art)) 800 200) 0 300 ∧
      ∀ x y : ℕ, y < 300 ∨ 500 ≤ y →
        (normalize_artwork_into_square art 800).px x y = (0, 0, 0, 0)) := by
  refine ⟨?_, ?_, ?_⟩
  · intro art side
    unfold normalize_artwork_into_square
    split_ifs <;> exact ⟨rfl, rfl⟩
  · intro art side hside h1w h1h
    have hw0 : (0 : ℚ) < ((trimArtwork2 (trimArtwork art)).w : ℚ) := by
      exact_mod_cast Nat.pos_of_ne_zero (by omega)
    have hh0 : (0 : ℚ) < ((trimArtwork2 (trimArtwork art)).h : ℚ) := by
      exact_mod_cast Nat.pos_of_ne_zero (by omega)
    have hs0 : (0 : ℚ) ≤ (side : ℚ) := by positivity
    constructor
    · intro hhw
      have hhw2 : ((trimArtwork2 (trimArtwork art)).h : ℚ) ≤
          ((trimArtwork2 (trimArtwork art)).w : ℚ) := by exact_mod_cast hhw
      have hmin : min ((side : ℚ) / ((trimArtwork2 (trimArtwork art)).w : ℚ))
          ((side : ℚ) / ((trimArtwork2 (trimArtwork art)).h : ℚ)) =
          (side : ℚ) / ((trimArtwork2 (trimArtwork art)).w : ℚ) := by
        apply min_eq_left
        rw [div_le_div_iff hw0 hh0]
        nlinarith
      rw [hmin]
      have hmul : ((trimArtwork2 (trimArtwork art)).w : ℚ) *
          ((side : ℚ) / ((trimArtwork2 (trimArtwork art)).w : ℚ)) =
          (side : ℚ) := by
        field_simp
      rw [hmul, pyRound_natCast]
      omega
    · intro hwh
      have hwh2 : ((trimArtwork2 (trimArtwork art)).w : ℚ) ≤
          ((trimArtwork2 (trimArtwork art)).h : ℚ) := by exact_mod_cast hwh
      have hmin : min ((side : ℚ) / ((trimArtwork2 (trimArtwork art)).w : ℚ))
          ((side : ℚ) / ((trimArtwork2 (trimArtwork art)).h : ℚ)) =
          (side : ℚ) / ((trimArtwork2 (trimArtwork art)).h : ℚ) := by
        apply min_eq_right
        rw [div_le_div_iff hh0 hw0]
        nlinarith
      rw [hmin]
      have hmul : ((trimArtwork2 (trimArtwork art)).h : ℚ) *
          ((side : ℚ) / ((trimArtwork2 (trimArtwork art)).h : ℚ)) =
          (side : ℚ) := by
        field_simp
      rw [hmul, pyRound_natCast]
      omega
  · intro art hW hH
    have hne : ¬((trimArtwork2 (trimArtwork art)).w = 0 ∨
        (trimArtwork2 (trimArtwork art)).h = 0) := by
      rw [hW, hH]
      norm_num
    have heq : normalize_artwork_into_square art 800 =
        pasteRGBA ⟨800, 800, fun _ _ => (0, 0, 0, 0)⟩
          (resizeImg (trimArtwork2 (trimArtwork art)) 800 200) 0 300 := by
      unfold normalize_artwork_into_square
      rw [if_neg hne, hW, hH]
      have hmin : min (((800 : ℕ) : ℚ) / ((400 : ℕ) : ℚ))
          (((800 : ℕ) : ℚ) / ((100 : ℕ) : ℚ)) = 2 := by norm_num
      rw [hmin]
      have h400 : ((400 : ℕ) : ℚ) * 2 = ((800 : ℕ) : ℚ) := by norm_num
      have h100 : ((100 : ℕ) : ℚ) * 2 = ((200 : ℕ) : ℚ) := by norm_num
      rw [h400, h100, pyRound_natCast 800, pyRound_natCast 200]
      have ht8 : (((800 : ℕ) : ℤ)).toNat = 800 := by omega
      have ht2 : (((200 : ℕ) : ℤ)).toNat = 200 := by omega
      rw [ht8, ht2]
      norm_num
    refine ⟨heq, ?_⟩
    intro x y hy
    rw [heq, pasteRGBA_px_outside]
    rw [show (resizeImg (trimArtwork2 (trimArtwork art)) 800 200).w = 800
      from rfl,
      show (resizeImg (trimArtwork2 (trimArtwork art)) 800 200).h = 200
      from rfl]
    omega

/-- Instance of `normalize_square_contain` on a constant solid-black
400×100 source (no trimmable padding). -/
theorem normalize_square_contain_witness :
    ((normalize_artwork_into_square
        ⟨400, 100, fun _ _ => (0, 0, 0, 255)⟩ 800).w = 800 ∧
      (normalize_artwork_into_square
        ⟨400, 100, fun _ _ => (0, 0, 0, 255)⟩ 800).h = 800) ∧
    (normalize_artwork_into_square ⟨400, 100, fun _ _ => (0, 0, 0, 255)⟩
        800 =
      pasteRGBA ⟨800, 800, fun _ _ => (0, 0, 0, 0)⟩
        (resizeImg (trimArtwork2 (trimArtwork
          ⟨400, 100, fun _ _ => (0, 0, 0, 255)⟩)) 800 200) 0 300 ∧
      ∀ x y : ℕ, y < 300 ∨ 500 ≤ y →
        (normalize_artwork_into_square
          ⟨400, 100, fun _ _ => (0, 0, 0, 255)⟩ 800).px x y =
          (0, 0, 0, 0)) :=
  ⟨normalize_square_contain.1 ⟨400, 100, fun _ _ => (0, 0, 0, 255)⟩ 800,
   normalize_square_contain.2.2 ⟨400, 100, fun _ _ => (0, 0, 0, 255)⟩
     (trim_black ⟨400, 100, fun _ _ => (0, 0, 0, 255)⟩ (fun _ _ => rfl)
       (by norm_num) (by norm_num)).1
     (trim_black ⟨400, 100, fun _ _ => (0, 0, 0, 255)⟩ (fun _ _ => rfl)
       (by norm_num) (by norm_num)).2⟩

/-- Claim C7: a request whose `data` parameter is absent or empty after
stripping is answered by exactly the 400 text response "Missing QR data"
with no fetch, encode or render effect; a request with non-empty data gets a
200 `image/png` response. -/
theorem missing_data_rejected (enc : Option ℕ → List (List Bool) × ℤ)
    (dataP artP : Option String) (dotP washP budgetP : Option PFloat)
    (fetched : Option (List (List ℚ))) :
    (pyStrip (dataP.getD "") = "" →
      generateHandler enc dataP artP dotP washP budgetP fetched =
        (⟨400, "text/plain", some "Missing QR data", false, none⟩, [])) ∧
    (pyStrip (dataP.getD "") ≠ "" →
      (generateHandler enc dataP artP dotP washP budgetP fetched).1.status =
          200 ∧
      (generateHandler enc dataP artP dotP washP budgetP
          fetched).1.mimetype = "image/png") := by
  constructor
  · intro h
    unfold generateHandler
    rw [if_pos h]
  · intro h
    unfold generateHandler
    rw [if_neg h]
    by_cases hart : pyStrip (artP.getD "") = ""
    · rw [if_pos hart]
      exact ⟨rfl, rfl⟩
    · rw [if_neg hart]
      cases fetched <;> exact ⟨rfl, rfl⟩

/-- Instance of `missing_data_rejected`: an absent `data` parameter yields
the 400 response with no effects; a non-empty one yields 200 `image/png`. -/
theorem missing_data_rejected_witness :
    (generateHandler (fun _ => ([], 1)) none none none none none none =
      (⟨400, "text/plain", some "Missing QR data", false, none⟩, [])) ∧
    ((generateHandler (fun _ => ([], 1)) (some "https://example.com") none
        none none none none).1.status = 200 ∧
      (generateHandler (fun _ => ([], 1)) (some "https://example.com") none
        none none none none).1.mimetype = "image/png") :=
  ⟨(missing_data_rejected (fun _ => ([], 1)) none none none none none
      none).1 (by decide),
   (missing_data_rejected (fun _ => ([], 1)) (some "https://example.com")
      none none none none none).2 (by decide)⟩

/-- Claim C6: with non-empty data, an empty `art` parameter means no fetch
is ever attempted, and a failed fetch/decode is recovered: both cases still
produce a 200 PNG rendered without artwork using the encoder's default
mask, and the failure never surfaces to the caller. -/
theorem artwork_failure_recovered (enc : Option ℕ → List (List Bool) × ℤ)
    (dataP artP : Option String) (dotP washP budgetP : Option PFloat)
    (fetched : Option (List (List ℚ)))
    (hdata : pyStrip (dataP.getD "") ≠ "") :
    (pyStrip (artP.getD "") = "" →
      generateHandler enc dataP artP dotP washP budgetP fetched =
        (⟨200, "image/png", none, false, none⟩,
          [.encode none, .render])) ∧
    (pyStrip (artP.getD "") ≠ "" → fetched = none →
      generateHandler enc dataP artP dotP washP budgetP fetched =
        (⟨200, "image/png", none, false, none⟩,
          [.fetch (pyStrip (artP.getD "")), .encode none, .render])) := by
  constructor
  · intro hart
    unfold generateHandler
    rw [if_neg hdata, if_pos hart]
  · intro hart hf
    unfold generateHandler
    rw [if_neg hdata, if_neg hart, hf]

/-- Instance of `artwork_failure_recovered`: empty `art` gives a fetch-free
200 PNG; a failed fetch of a non-empty `art` URL still gives a 200 PNG with
the default mask. -/
theorem artwork_failure_recovered_witness :
    (generateHandler (fun _ => ([], 1)) (some "https://example.com")
        (some "") none none none none =
      (⟨200, "image/png", none, false, none⟩,
        [.encode none, .render])) ∧
    (generateHandler (fun _ => ([], 1)) (some "https://example.com")
        (some "https://img.example/a.png") none none none none =
      (⟨200, "image/png", none, false, none⟩,
        [.fetch (pyStrip ((some "https://img.example/a.png").getD "")),
          .encode none, .render])) :=
  ⟨(artwork_failure_recovered (fun _ => ([], 1))
      (some "https://example.com") (some "") none none none none
      (by decide)).1 (by decide),
   (artwork_failure_recovered (fun _ => ([], 1))
      (some "https://example.com") (some "https://img.example/a.png") none
      none none none (by decide)).2 (by decide) rfl⟩

/-- Claim C4 (counterexample): at version 7 the code computes alignment
centers `[6, 38, 38]` — the intermediate center 22 required by the evenly
spaced placement rule is missing and the last center is duplicated — so the
true alignment-pattern center (22, 22) is not classified as
alignment-protected. -/
theorem alignment_centers_v7_bug :
    alignment_centers 7 = [6, 38, 38] ∧
      alignment_centers 7 ≠ [6, 22, 38] ∧
      in_alignment 22 22 7 = false ∧
      is_protected 22 22 45 7 = false := by
  refine ⟨by decide, by decide, by decide, by decide⟩

end QRArt

